import Mathlib

/-!
Verification of the calendar scheduling engine and frontend of the todo_app
repository. Time is measured in minutes from midnight as natural numbers, and
a time interval is half-open. The backend engine (interval model, free-slot
finder, duration estimator, heuristic scheduler, AI scheduler, orchestrator)
is modelled from the design specification, since only its documentation and
its frontend callers appear in the repository sources; the frontend components
(TodoList, TodoForm, the API client response shape) are embedded directly from
the TypeScript sources.
-/

/-- Modelled from the spec: a half-open time interval with start and stop
timestamps in minutes. The source field named end is spelled stop here because
end is a reserved word in Lean. -/
structure TimeInterval where
  start : Nat
  stop : Nat
deriving DecidableEq, Repr

/-- Modelled from the spec: duration of an interval in minutes. -/
def TimeInterval.duration (i : TimeInterval) : Nat := i.stop - i.start

/-- A list of intervals is well formed when every interval has start before stop. -/
def WellFormed (l : List TimeInterval) : Prop := ∀ i ∈ l, i.start < i.stop

instance (l : List TimeInterval) : Decidable (WellFormed l) :=
  List.decidableBAll (fun i : TimeInterval => i.start < i.stop) l

/-- A minute t is covered by some interval of the list. -/
def covers (l : List TimeInterval) (t : Nat) : Prop :=
  ∃ i ∈ l, i.start ≤ t ∧ t < i.stop

instance (l : List TimeInterval) (t : Nat) : Decidable (covers l t) :=
  List.decidableBEx (fun i : TimeInterval => i.start ≤ t ∧ t < i.stop) l

/-- Sum of the durations of a list of intervals. -/
def sumDurations (l : List TimeInterval) : Nat :=
  (l.map TimeInterval.duration).sum

/-- Number of minutes below the bound n covered by the union of the intervals. -/
def unionDuration (l : List TimeInterval) (n : Nat) : Nat :=
  ((Finset.range n).filter (fun t => covers l t)).card

/-- Modelled from the spec: the sort-by-start step of merge. -/
def sortByStart (l : List TimeInterval) : List TimeInterval :=
  List.insertionSort (fun a b => a.start ≤ b.start) l

instance : IsTotal TimeInterval (fun a b => a.start ≤ b.start) :=
  ⟨fun a b => Nat.le_total a.start b.start⟩

instance : IsTrans TimeInterval (fun a b => a.start ≤ b.start) :=
  ⟨fun _ _ _ hab hbc => Nat.le_trans hab hbc⟩

/-- Modelled from the spec: the sweep step of merge, joining the next interval
into the current one exactly when its start is at most the current stop. -/
def mergeSweep : TimeInterval → List TimeInterval → List TimeInterval
  | cur, [] => [cur]
  | cur, i :: rest =>
    if i.start ≤ cur.stop then
      mergeSweep ⟨cur.start, max cur.stop i.stop⟩ rest
    else
      cur :: mergeSweep i rest

/-- Modelled from the spec: merge raw intervals into a sorted non-overlapping
set by sorting by start and sweeping. -/
def merge (l : List TimeInterval) : List TimeInterval :=
  match sortByStart l with
  | [] => []
  | i :: rest => mergeSweep i rest

/-- Modelled from the spec: sweep a cursor across the window from start to
stop, emitting the gap before each busy interval and after the last one,
clipped to the window bounds. -/
def sweepGaps (wstop : Nat) : Nat → List TimeInterval → List TimeInterval
  | cursor, [] => if cursor < wstop then [⟨cursor, wstop⟩] else []
  | cursor, b :: rest =>
    let gapStop := min b.start wstop
    let tail := sweepGaps wstop (max cursor b.stop) rest
    if cursor < gapStop then ⟨cursor, gapStop⟩ :: tail else tail

/-- Modelled from the spec: subtract busy intervals from a window, producing
the ordered free gaps. -/
def subtract (window : TimeInterval) (busy : List TimeInterval) : List TimeInterval :=
  sweepGaps window.stop window.start busy

/-- Modelled from the spec: minimum usable granularity of a free slot in minutes. -/
def minGranularity : Nat := 15

/-- Modelled from the spec: normalize busy events by merge, subtract them from
the working window, and discard slots shorter than the minimum granularity. -/
def findFreeSlots (window : TimeInterval) (busyEvents : List TimeInterval) : List TimeInterval :=
  (subtract window (merge busyEvents)).filter (fun s => minGranularity ≤ s.duration)

/-- Whether the pattern is a leading segment of the character list. -/
def hasPref : List Char → List Char → Bool
  | [], _ => true
  | _ :: _, [] => false
  | k :: ks, c :: cs => k == c && hasPref ks cs

/-- Whether the pattern occurs contiguously somewhere in the character list. -/
def occursIn (kw : List Char) : List Char → Bool
  | [] => hasPref kw []
  | c :: cs => hasPref kw (c :: cs) || occursIn kw cs

/-- Lowercased characters of the combined title and description text. -/
def taskText (title description : String) : List Char :=
  (title.data ++ ' ' :: description.data).map Char.toLower

/-- Modelled from the spec: keyword markers for a short fixed duration. -/
def shortKeywords : List (List Char) := ["call".data, "meeting".data]

/-- Modelled from the spec: keyword markers for a longer duration. -/
def longKeywords : List (List Char) := ["write".data, "design".data, "review".data]

/-- Modelled from the spec: the duration estimator scans the combined text,
case-insensitively, for category markers and returns a default of 30 minutes
when no marker matches; longer markers yield 60 minutes and short markers 15. -/
def estimate (title description : String) : Nat :=
  if longKeywords.any (fun kw => occursIn kw (taskText title description)) then 60
  else if shortKeywords.any (fun kw => occursIn kw (taskText title description)) then 15
  else 30

/-- Modelled from the spec: task category used by the heuristic scheduler. -/
inductive Category
  | WORK
  | PERSONAL
deriving DecidableEq, Repr

/-- Modelled from the spec: keyword markers for personal tasks. -/
def personalKeywords : List (List Char) :=
  ["gym".data, "doctor".data, "family".data, "shopping".data, "personal".data]

/-- Modelled from the spec: classify a task as WORK or PERSONAL by keyword
match on its text, defaulting to WORK when no personal marker is found. -/
def classify (title description : String) : Category :=
  if personalKeywords.any (fun kw => occursIn kw (taskText title description)) then
    Category.PERSONAL
  else
    Category.WORK

/-- Modelled from the spec: provenance of a scheduling decision. -/
inductive Source
  | AI
  | FALLBACK
deriving DecidableEq, Repr

/-- Modelled from the spec: a scheduling decision with its chosen start time,
duration in minutes, provenance and human readable reasoning. -/
structure SchedulingDecision where
  slot_start : Nat
  duration_minutes : Nat
  source : Source
  reasoning : String
deriving DecidableEq, Repr

/-- Modelled from the spec: a task owned by the data store, with its external
event reference that records whether it is already scheduled. -/
structure TodoTask where
  id : Nat
  title : String
  description : String
  eventRef : Option String
deriving DecidableEq, Repr

/-- Midday in minutes from midnight. -/
def midday : Nat := 720

/-- A slot is a morning slot when it starts before midday. -/
def isMorningSlot (s : TimeInterval) : Bool := decide (s.start < midday)

/-- Modelled from the spec: WORK tasks prefer morning slots and PERSONAL
tasks prefer afternoon slots. -/
def preferredSlot (c : Category) (s : TimeInterval) : Bool :=
  match c with
  | Category.WORK => isMorningSlot s
  | Category.PERSONAL => !isMorningSlot s

/-- Modelled from the spec: rank free slots with the preferred tier first,
keeping the original earliest-first order inside each tier. -/
def rankSlots (c : Category) (slots : List TimeInterval) : List TimeInterval :=
  slots.filter (fun s => preferredSlot c s) ++
    slots.filter (fun s => !preferredSlot c s)

/-- Reasoning string attached to heuristic decisions. -/
def fallbackReason : String :=
  "fallback heuristic: earliest preferred slot with sufficient duration"

/-- Modelled from the spec: result of the heuristic scheduler. -/
inductive FallbackResult
  | noSlotAvailable
  | decision (d : SchedulingDecision)
deriving DecidableEq, Repr

/-- Modelled from the spec: the heuristic scheduler classifies the task,
estimates its duration, ranks the free slots by category preference and walks
the ranked list selecting the first slot of sufficient duration, placing the
task at that slot start. -/
def chooseFallbackSlot (freeSlots : List TimeInterval) (tk : TodoTask) : FallbackResult :=
  match List.find? (fun s => decide (estimate tk.title tk.description ≤ s.duration))
      (rankSlots (classify tk.title tk.description) freeSlots) with
  | some s => FallbackResult.decision
      ⟨s.start, estimate tk.title tk.description, Source.FALLBACK, fallbackReason⟩
  | none => FallbackResult.noSlotAvailable

/-- Modelled from the spec: the observable response of the AI completion
collaborator, collapsing every transport level failure mode into one of the
named failure constructors. -/
inductive AiResponse
  | timeout
  | malformed
  | authError
  | ok (start_time : Nat) (duration_minutes : Nat) (reasoning : String)
deriving DecidableEq, Repr

/-- Modelled from the spec: result of the AI scheduler. -/
inductive AiResult
  | fallbackRequired
  | decision (d : SchedulingDecision)
deriving DecidableEq, Repr

/-- The recommended interval is fully contained in one element of the slots. -/
def fitsInSlots (slots : List TimeInterval) (s d : Nat) : Bool :=
  slots.any (fun slot => decide (slot.start ≤ s) && decide (s + d ≤ slot.stop))

/-- Modelled from the spec: the AI scheduler converts timeouts, malformed or
incomplete responses and auth or quota errors to FallbackRequired, validates
that the recommendation is fully contained in one free slot and otherwise
also returns FallbackRequired, and tags successful decisions with source AI. -/
def chooseAiSlot (freeSlots : List TimeInterval) (tk : TodoTask) (resp : AiResponse) : AiResult :=
  match resp with
  | AiResponse.timeout => AiResult.fallbackRequired
  | AiResponse.malformed => AiResult.fallbackRequired
  | AiResponse.authError => AiResult.fallbackRequired
  | AiResponse.ok s d r =>
    if fitsInSlots freeSlots s d then
      AiResult.decision ⟨s, d, Source.AI, r⟩
    else
      AiResult.fallbackRequired

/-- Modelled from the spec: the orchestrator tries the AI scheduler first and
the heuristic scheduler on FallbackRequired. -/
def pickDecision (freeSlots : List TimeInterval) (tk : TodoTask) (resp : AiResponse) :
    Option SchedulingDecision :=
  match chooseAiSlot freeSlots tk resp with
  | AiResult.decision d => some d
  | AiResult.fallbackRequired =>
    match chooseFallbackSlot freeSlots tk with
    | FallbackResult.decision d => some d
    | FallbackResult.noSlotAvailable => none

/-- The heuristic decision as an option, for comparing the orchestrated
decision with the standalone heuristic output. -/
def fallbackOpt (freeSlots : List TimeInterval) (tk : TodoTask) : Option SchedulingDecision :=
  match chooseFallbackSlot freeSlots tk with
  | FallbackResult.decision d => some d
  | FallbackResult.noSlotAvailable => none

/-- Modelled from the spec: one scheduleTask invocation consumes fixed
collaborator behaviors: the data store lookup, the calendar busy query, the
AI completion response, the calendar event creation and the conditional
event-reference update. -/
structure Collaborators where
  getTask : Option TodoTask
  busy : Except Unit (List TimeInterval)
  aiResponse : AiResponse
  createEventResult : Except Unit String
  setEventRefResult : Except Unit Unit
deriving Repr

/-- Counters of collaborator calls performed by one scheduleTask invocation:
AI completion attempts, calendar event creation attempts and data store
event-reference updates. -/
structure Effects where
  aiCalls : Nat
  calendarWrites : Nat
  storeWrites : Nat
deriving DecidableEq, Repr

/-- Modelled from the spec: outcomes of the scheduling orchestrator. -/
inductive ScheduleOutcome
  | notFound
  | alreadyScheduled
  | calendarUnavailable
  | noSlotAvailable
  | calendarWriteFailed
  | partialScheduleFailure
  | scheduled (d : SchedulingDecision) (eventRef : String)
deriving DecidableEq, Repr

/-- Modelled from the spec: the scheduling orchestrator loads the task,
refuses tasks whose event reference is already set, obtains busy intervals,
computes free slots, returns NoSlotAvailable immediately on an empty slot
list without attempting AI, otherwise tries the AI scheduler then the
heuristic scheduler, writes the calendar event and persists the returned
event id onto the task event reference. -/
def scheduleTask (window : TimeInterval) (c : Collaborators) :
    ScheduleOutcome × Effects :=
  match c.getTask with
  | none => (ScheduleOutcome.notFound, ⟨0, 0, 0⟩)
  | some task =>
    match task.eventRef with
    | some _ => (ScheduleOutcome.alreadyScheduled, ⟨0, 0, 0⟩)
    | none =>
      match c.busy with
      | Except.error _ => (ScheduleOutcome.calendarUnavailable, ⟨0, 0, 0⟩)
      | Except.ok busyEvents =>
        let freeSlots := findFreeSlots window busyEvents
        if freeSlots.isEmpty then (ScheduleOutcome.noSlotAvailable, ⟨0, 0, 0⟩)
        else
          match pickDecision freeSlots task c.aiResponse with
          | none => (ScheduleOutcome.noSlotAvailable, ⟨1, 0, 0⟩)
          | some d =>
            match c.createEventResult with
            | Except.error _ => (ScheduleOutcome.calendarWriteFailed, ⟨1, 1, 0⟩)
            | Except.ok evId =>
              match c.setEventRefResult with
              | Except.error _ => (ScheduleOutcome.partialScheduleFailure, ⟨1, 1, 1⟩)
              | Except.ok _ => (ScheduleOutcome.scheduled d evId, ⟨1, 1, 1⟩)

/-- Modelled from the spec: the failure modes of the AI scheduler on a given
free-slot list: transport timeout, malformed or incomplete output, auth or
quota error, or a recommendation not contained in any free slot. -/
def AiFailureOn (freeSlots : List TimeInterval) (resp : AiResponse) : Prop :=
  match resp with
  | AiResponse.ok s d _ => fitsInSlots freeSlots s d = false
  | _ => True

/-- Field names of the schedule-todo API response declared by the frontend
API client in scheduleTodoInCalendar. -/
def scheduleTodoResponseFields : List String :=
  ["message", "scheduled_time", "duration", "ai_reasoning", "free_slots_available"]

/-- The Todo record from the frontend type declarations: optional fields of
the TypeScript interface become Option values. -/
structure Todo where
  id : Nat
  title : String
  description : Option String
  completed : Bool
  date : String
  calendar_event_id : Option String
  created_at : String
  updated_at : Option String
deriving DecidableEq, Repr

/-- From TodoList: a todo is scheduled when its calendar event id is neither
null nor undefined. -/
def isScheduled (t : Todo) : Bool := t.calendar_event_id.isSome

/-- Visibility of the schedule-related controls of one TodoList row. -/
structure RowActions where
  scheduleButton : Bool
  scheduledBadge : Bool
deriving DecidableEq, Repr

/-- From TodoList: in edit mode the row shows only save and cancel controls;
otherwise the schedule button renders exactly when a schedule handler was
provided and the todo is neither completed nor scheduled, and the
already-scheduled badge renders exactly when the todo is scheduled. -/
def todoRowActions (hasScheduleHandler : Bool) (editing : Bool) (t : Todo) : RowActions :=
  if editing then ⟨false, false⟩
  else ⟨hasScheduleHandler && !t.completed && !isScheduled t, isScheduled t⟩

/-- From TodoForm handleSubmit: JavaScript trim removes whitespace from both
ends of the string. -/
def jsTrim (s : String) : String :=
  String.mk (((s.data.dropWhile Char.isWhitespace).reverse.dropWhile
    Char.isWhitespace).reverse)

/-- From TodoForm handleSubmit: the form calls onAdd only when the trimmed
title is truthy, passing the trimmed title and the trimmed description, the
latter replaced by undefined when it is empty. -/
def handleSubmit (title description : String) : Option (String × Option String) :=
  if jsTrim title = "" then none
  else some (jsTrim title,
    if jsTrim description = "" then none else some (jsTrim description))

lemma covers_nil (t : Nat) : ¬ covers [] t := by
  simp [covers]

lemma covers_cons {i : TimeInterval} {l : List TimeInterval} {t : Nat} :
    covers (i :: l) t ↔ (i.start ≤ t ∧ t < i.stop) ∨ covers l t := by
  simp [covers]

lemma covers_perm {l1 l2 : List TimeInterval} (h : l1.Perm l2) (t : Nat) :
    covers l1 t ↔ covers l2 t := by
  constructor
  · rintro ⟨i, hi, hp⟩
    exact ⟨i, h.mem_iff.mp hi, hp⟩
  · rintro ⟨i, hi, hp⟩
    exact ⟨i, h.mem_iff.mpr hi, hp⟩

lemma sortByStart_perm (l : List TimeInterval) : (sortByStart l).Perm l :=
  List.perm_insertionSort _ l

lemma sortByStart_sorted (l : List TimeInterval) :
    List.Pairwise (fun a b : TimeInterval => a.start ≤ b.start) (sortByStart l) :=
  List.sorted_insertionSort _ l

lemma mergeSweep_covers :
    ∀ (rest : List TimeInterval) (cur : TimeInterval),
      List.Pairwise (fun a b : TimeInterval => a.start ≤ b.start) (cur :: rest) →
      ∀ t, (covers (mergeSweep cur rest) t ↔ covers (cur :: rest) t) := by
  intro rest
  induction rest with
  | nil => intro cur _ t; rfl
  | cons i rest ih =>
    intro cur hpw t
    have hcuri : cur.start ≤ i.start := (List.pairwise_cons.mp hpw).1 i (by simp)
    have hcurrest : ∀ x ∈ rest, cur.start ≤ x.start := by
      intro x hx
      exact (List.pairwise_cons.mp hpw).1 x (by simp [hx])
    have htail : List.Pairwise (fun a b : TimeInterval => a.start ≤ b.start) (i :: rest) :=
      (List.pairwise_cons.mp hpw).2
    by_cases hm : i.start ≤ cur.stop
    · rw [mergeSweep, if_pos hm]
      have hpw2 : List.Pairwise (fun a b : TimeInterval => a.start ≤ b.start)
          (⟨cur.start, max cur.stop i.stop⟩ :: rest) := by
        refine List.pairwise_cons.mpr ⟨?_, (List.pairwise_cons.mp htail).2⟩
        intro x hx
        exact hcurrest x hx
      rw [ih ⟨cur.start, max cur.stop i.stop⟩ hpw2 t]
      rw [covers_cons, covers_cons, covers_cons]
      dsimp only
      constructor
      · rintro (⟨h1, h2⟩ | h)
        · by_cases hlt : t < cur.stop
          · exact Or.inl ⟨h1, hlt⟩
          · exact Or.inr (Or.inl ⟨by omega, by omega⟩)
        · exact Or.inr (Or.inr h)
      · rintro (⟨h1, h2⟩ | ⟨h1, h2⟩ | h)
        · exact Or.inl ⟨h1, by omega⟩
        · exact Or.inl ⟨by omega, by omega⟩
        · exact Or.inr h
    · rw [mergeSweep, if_neg hm]
      rw [covers_cons, covers_cons, ih i htail t]

lemma mergeSweep_start_lb :
    ∀ (rest : List TimeInterval) (cur : TimeInterval),
      List.Pairwise (fun a b : TimeInterval => a.start ≤ b.start) (cur :: rest) →
      ∀ x ∈ mergeSweep cur rest, cur.start ≤ x.start := by
  intro rest
  induction rest with
  | nil =>
    intro cur _ x hx
    simp [mergeSweep] at hx
    simp [hx]
  | cons i rest ih =>
    intro cur hpw x hx
    have hi : cur.start ≤ i.start := (List.pairwise_cons.mp hpw).1 i (by simp)
    have hrest : ∀ y ∈ rest, cur.start ≤ y.start := by
      intro y hy
      exact (List.pairwise_cons.mp hpw).1 y (by simp [hy])
    have htail : List.Pairwise (fun a b : TimeInterval => a.start ≤ b.start) (i :: rest) :=
      (List.pairwise_cons.mp hpw).2
    by_cases hm : i.start ≤ cur.stop
    · rw [mergeSweep, if_pos hm] at hx
      have hpw2 : List.Pairwise (fun a b : TimeInterval => a.start ≤ b.start)
          (⟨cur.start, max cur.stop i.stop⟩ :: rest) :=
        List.pairwise_cons.mpr ⟨fun y hy => hrest y hy, (List.pairwise_cons.mp htail).2⟩
      exact ih ⟨cur.start, max cur.stop i.stop⟩ hpw2 x hx
    · rw [mergeSweep, if_neg hm] at hx
      rcases List.mem_cons.mp hx with h | h
      · simp [h]
      · exact Nat.le_trans hi (ih i htail x h)

lemma mergeSweep_wf_chain :
    ∀ (rest : List TimeInterval) (cur : TimeInterval),
      List.Pairwise (fun a b : TimeInterval => a.start ≤ b.start) (cur :: rest) →
      cur.start < cur.stop → WellFormed rest →
      WellFormed (mergeSweep cur rest) ∧
      List.Chain' (fun a b : TimeInterval => a.stop ≤ b.start) (mergeSweep cur rest) := by
  intro rest
  induction rest with
  | nil =>
    intro cur _ hcur _
    constructor
    · intro i hi
      simp [mergeSweep] at hi
      simp [hi, hcur]
    · simp [mergeSweep]
  | cons i rest ih =>
    intro cur hpw hcur hwf
    have htail : List.Pairwise (fun a b : TimeInterval => a.start ≤ b.start) (i :: rest) :=
      (List.pairwise_cons.mp hpw).2
    have hwfrest : WellFormed rest := fun x hx => hwf x (by simp [hx])
    have hwfi : i.start < i.stop := hwf i (by simp)
    by_cases hm : i.start ≤ cur.stop
    · rw [mergeSweep, if_pos hm]
      have hpw2 : List.Pairwise (fun a b : TimeInterval => a.start ≤ b.start)
          (⟨cur.start, max cur.stop i.stop⟩ :: rest) := by
        refine List.pairwise_cons.mpr ⟨?_, (List.pairwise_cons.mp htail).2⟩
        intro y hy
        exact (List.pairwise_cons.mp hpw).1 y (by simp [hy])
      exact ih ⟨cur.start, max cur.stop i.stop⟩ hpw2 (by dsimp only; omega) hwfrest
    · rw [mergeSweep, if_neg hm]
      obtain ⟨hwf2, hch2⟩ := ih i htail hwfi hwfrest
      have hlb := mergeSweep_start_lb rest i htail
      constructor
      · intro x hx
        rcases List.mem_cons.mp hx with h | h
        · simp [h, hcur]
        · exact hwf2 x h
      · refine List.chain'_cons'.mpr ⟨?_, hch2⟩
        intro y hy
        have hymem : y ∈ mergeSweep i rest := List.mem_of_mem_head? hy
        have := hlb y hymem
        omega

lemma mergeSweep_stop_le :
    ∀ (rest : List TimeInterval) (cur : TimeInterval) (n : Nat),
      cur.stop ≤ n → (∀ x ∈ rest, x.stop ≤ n) →
      ∀ x ∈ mergeSweep cur rest, x.stop ≤ n := by
  intro rest
  induction rest with
  | nil =>
    intro cur n hcur _ x hx
    simp [mergeSweep] at hx
    simp [hx, hcur]
  | cons i rest ih =>
    intro cur n hcur hrest x hx
    have hi : i.stop ≤ n := hrest i (by simp)
    have hrest2 : ∀ y ∈ rest, y.stop ≤ n := fun y hy => hrest y (by simp [hy])
    by_cases hm : i.start ≤ cur.stop
    · rw [mergeSweep, if_pos hm] at hx
      exact ih ⟨cur.start, max cur.stop i.stop⟩ n (by dsimp only; omega) hrest2 x hx
    · rw [mergeSweep, if_neg hm] at hx
      rcases List.mem_cons.mp hx with h | h
      · simp [h, hcur]
      · exact ih i n hi hrest2 x h

lemma chain_sep_pairwise :
    ∀ (l : List TimeInterval), WellFormed l →
      List.Chain' (fun a b : TimeInterval => a.stop ≤ b.start) l →
      List.Pairwise (fun a b : TimeInterval => a.stop ≤ b.start) l := by
  intro l
  induction l with
  | nil => intro _ _; exact List.Pairwise.nil
  | cons i rest ih =>
    intro hwf hch
    have hwfrest : WellFormed rest := fun x hx => hwf x (by simp [hx])
    have hchrest : List.Chain' (fun a b : TimeInterval => a.stop ≤ b.start) rest :=
      (List.chain'_cons'.mp hch).2
    have hpwrest := ih hwfrest hchrest
    refine List.pairwise_cons.mpr ⟨?_, hpwrest⟩
    intro x hx
    cases rest with
    | nil => simp at hx
    | cons j rest2 =>
      have hij : i.stop ≤ j.start := by
        have := (List.chain'_cons'.mp hch).1
        exact this j rfl
      rcases List.mem_cons.mp hx with h | h
      · simp [h, hij]
      · have hjx : j.stop ≤ x.start := (List.pairwise_cons.mp hpwrest).1 x h
        have hwfj : j.start < j.stop := hwfrest j (by simp)
        omega

lemma covers_merge (l : List TimeInterval) (t : Nat) :
    covers (merge l) t ↔ covers l t := by
  unfold merge
  cases hs : sortByStart l with
  | nil =>
    have : l = [] := by
      have hperm := sortByStart_perm l
      rw [hs] at hperm
      exact hperm.nil_eq.symm
    simp [this]
  | cons i rest =>
    have hpw := sortByStart_sorted l
    rw [hs] at hpw
    rw [mergeSweep_covers rest i hpw t]
    have hperm := sortByStart_perm l
    rw [hs] at hperm
    exact covers_perm hperm t

lemma merge_wf_chain (l : List TimeInterval) (hwf : WellFormed l) :
    WellFormed (merge l) ∧
    List.Chain' (fun a b : TimeInterval => a.stop ≤ b.start) (merge l) := by
  unfold merge
  cases hs : sortByStart l with
  | nil => constructor <;> simp [WellFormed]
  | cons i rest =>
    have hpw := sortByStart_sorted l
    rw [hs] at hpw
    have hperm := sortByStart_perm l
    rw [hs] at hperm
    have hwfall : WellFormed (i :: rest) := fun x hx => hwf x (hperm.mem_iff.mp hx)
    exact mergeSweep_wf_chain rest i hpw (hwfall i (by simp))
      (fun x hx => hwfall x (by simp [hx]))

lemma merge_stop_le (l : List TimeInterval) (n : Nat) (hn : ∀ i ∈ l, i.stop ≤ n) :
    ∀ x ∈ merge l, x.stop ≤ n := by
  unfold merge
  cases hs : sortByStart l with
  | nil => simp
  | cons i rest =>
    have hperm := sortByStart_perm l
    rw [hs] at hperm
    have hall : ∀ x ∈ i :: rest, x.stop ≤ n := fun x hx => hn x (hperm.mem_iff.mp hx)
    exact mergeSweep_stop_le rest i n (hall i (by simp)) (fun x hx => hall x (by simp [hx]))

lemma sep_sum_card :
    ∀ (l : List TimeInterval), WellFormed l →
      List.Pairwise (fun a b : TimeInterval => a.stop ≤ b.start) l →
      ∀ n, (∀ i ∈ l, i.stop ≤ n) → sumDurations l = unionDuration l n := by
  intro l
  induction l with
  | nil =>
    intro _ _ n _
    simp [sumDurations, unionDuration, covers_nil]
  | cons i rest ih =>
    intro hwf hpw n hn
    have hwfrest : WellFormed rest := fun x hx => hwf x (by simp [hx])
    have hpwrest := (List.pairwise_cons.mp hpw).2
    have hnrest : ∀ x ∈ rest, x.stop ≤ n := fun x hx => hn x (by simp [hx])
    have hsep : ∀ x ∈ rest, i.stop ≤ x.start := (List.pairwise_cons.mp hpw).1
    have hin : i.stop ≤ n := hn i (by simp)
    have hfilter :
        (Finset.range n).filter (fun t => covers (i :: rest) t) =
          ((Finset.range n).filter (fun t => i.start ≤ t ∧ t < i.stop)) ∪
          ((Finset.range n).filter (fun t => covers rest t)) := by
      rw [← Finset.filter_or]
      apply Finset.filter_congr
      intro t _
      simp [covers_cons]
    have hIco :
        (Finset.range n).filter (fun t => i.start ≤ t ∧ t < i.stop) =
          Finset.Ico i.start i.stop := by
      ext t
      simp only [Finset.mem_filter, Finset.mem_range, Finset.mem_Ico]
      omega
    have hdisj :
        Disjoint ((Finset.range n).filter (fun t => i.start ≤ t ∧ t < i.stop))
          ((Finset.range n).filter (fun t => covers rest t)) := by
      rw [Finset.disjoint_left]
      intro t ht1 ht2
      have h1 := (Finset.mem_filter.mp ht1).2
      obtain ⟨x, hx, hxt⟩ := (Finset.mem_filter.mp ht2).2
      have := hsep x hx
      omega
    calc sumDurations (i :: rest)
        = i.duration + sumDurations rest := by simp [sumDurations]
      _ = (Finset.Ico i.start i.stop).card +
            ((Finset.range n).filter (fun t => covers rest t)).card := by
          rw [Nat.card_Ico, ih hwfrest hpwrest n hnrest]
          rfl
      _ = unionDuration (i :: rest) n := by
          rw [unionDuration, hfilter, Finset.card_union_of_disjoint hdisj, hIco]

/-- C4: for well-formed input intervals (possibly overlapping and unsorted),
merge returns a list sorted ascending by start, pairwise non-overlapping with
each stop at most the next start, whose total covered duration equals the
duration of the set-union of the input intervals (counted below any bound n
that dominates every stop). -/
theorem merge_sorted_disjoint_duration (l : List TimeInterval) (hwf : WellFormed l)
    (n : Nat) (hn : ∀ i ∈ l, i.stop ≤ n) :
    List.Pairwise (fun a b : TimeInterval => a.start ≤ b.start) (merge l) ∧
    List.Chain' (fun a b : TimeInterval => a.stop ≤ b.start) (merge l) ∧
    sumDurations (merge l) = unionDuration l n := by
  obtain ⟨hwfm, hchm⟩ := merge_wf_chain l hwf
  have hpwsep := chain_sep_pairwise (merge l) hwfm hchm
  refine ⟨?_, hchm, ?_⟩
  · refine hpwsep.imp_of_mem ?_
    intro a b ha _ hsep
    have := hwfm a ha
    omega
  · have hstop := merge_stop_le l n hn
    rw [sep_sum_card (merge l) hwfm hpwsep n hstop]
    unfold unionDuration
    congr 1
    apply Finset.filter_congr
    intro t _
    simp [covers_merge]

theorem merge_sorted_disjoint_duration_witness :
    List.Pairwise (fun a b : TimeInterval => a.start ≤ b.start)
      (merge [⟨5, 10⟩, ⟨1, 6⟩, ⟨20, 25⟩]) ∧
    List.Chain' (fun a b : TimeInterval => a.stop ≤ b.start)
      (merge [⟨5, 10⟩, ⟨1, 6⟩, ⟨20, 25⟩]) ∧
    sumDurations (merge [⟨5, 10⟩, ⟨1, 6⟩, ⟨20, 25⟩]) =
      unionDuration [⟨5, 10⟩, ⟨1, 6⟩, ⟨20, 25⟩] 30 :=
  merge_sorted_disjoint_duration [⟨5, 10⟩, ⟨1, 6⟩, ⟨20, 25⟩] (by decide) 30 (by decide)

lemma sweepGaps_wf :
    ∀ (l : List TimeInterval) (wstop cursor : Nat),
      ∀ s ∈ sweepGaps wstop cursor l, s.start < s.stop := by
  intro l
  induction l with
  | nil =>
    intro wstop cursor s hs
    rw [sweepGaps] at hs
    split at hs
    next hlt =>
      simp at hs
      subst hs
      exact hlt
    next => simp at hs
  | cons b rest ih =>
    intro wstop cursor s hs
    rw [sweepGaps] at hs
    split at hs
    · rcases List.mem_cons.mp hs with h | h
      · simp [h]
        omega
      · exact ih wstop (max cursor b.stop) s h
    · exact ih wstop (max cursor b.stop) s hs

lemma sweepGaps_not_covered :
    ∀ (l : List TimeInterval) (wstop cursor : Nat),
      List.Pairwise (fun a b : TimeInterval => a.start ≤ b.start) l →
      ∀ s ∈ sweepGaps wstop cursor l, ∀ t, s.start ≤ t → t < s.stop →
        cursor ≤ t ∧ t < wstop ∧ ¬ covers l t := by
  intro l
  induction l with
  | nil =>
    intro wstop cursor _ s hs t ht1 ht2
    rw [sweepGaps] at hs
    split at hs
    · simp at hs
      rw [hs] at ht1 ht2
      exact ⟨ht1, ht2, covers_nil t⟩
    · simp at hs
  | cons b rest ih =>
    intro wstop cursor hpw s hs t ht1 ht2
    have hpwrest := (List.pairwise_cons.mp hpw).2
    have hblb : ∀ x ∈ rest, b.start ≤ x.start := (List.pairwise_cons.mp hpw).1
    rw [sweepGaps] at hs
    split at hs
    · rcases List.mem_cons.mp hs with h | h
      · rw [h] at ht1 ht2
        simp only at ht1 ht2
        refine ⟨ht1, by omega, ?_⟩
        rw [covers_cons]
        rintro (⟨h1, h2⟩ | ⟨x, hx, hx1, hx2⟩)
        · omega
        · have := hblb x hx
          omega
      · obtain ⟨hc, hw, hncov⟩ := ih wstop (max cursor b.stop) hpwrest s h t ht1 ht2
        refine ⟨by omega, hw, ?_⟩
        rw [covers_cons]
        rintro (⟨h1, h2⟩ | hcov)
        · omega
        · exact hncov hcov
    · obtain ⟨hc, hw, hncov⟩ := ih wstop (max cursor b.stop) hpwrest s hs t ht1 ht2
      refine ⟨by omega, hw, ?_⟩
      rw [covers_cons]
      rintro (⟨h1, h2⟩ | hcov)
      · omega
      · exact hncov hcov

lemma merge_sorted_start (l : List TimeInterval) (hwf : WellFormed l) :
    List.Pairwise (fun a b : TimeInterval => a.start ≤ b.start) (merge l) := by
  obtain ⟨hwfm, hchm⟩ := merge_wf_chain l hwf
  refine (chain_sep_pairwise (merge l) hwfm hchm).imp_of_mem ?_
  intro a b ha _ hsep
  have := hwfm a ha
  omega

lemma findFreeSlots_covered_empty (window : TimeInterval) (busy : List TimeInterval)
    (hwf : WellFormed busy)
    (hcov : ∀ t, window.start ≤ t → t < window.stop → covers busy t) :
    findFreeSlots window busy = [] := by
  have hsub : subtract window (merge busy) = [] := by
    rw [List.eq_nil_iff_forall_not_mem]
    intro s hs
    have hwfs := sweepGaps_wf (merge busy) window.stop window.start s hs
    obtain ⟨hc, hw, hncov⟩ := sweepGaps_not_covered (merge busy) window.stop window.start
      (merge_sorted_start busy hwf) s hs s.start (Nat.le_refl _) hwfs
    exact hncov ((covers_merge busy s.start).mpr (hcov s.start hc hw))
  rw [findFreeSlots, hsub]
  rfl

lemma estimate_ge (title description : String) : 15 ≤ estimate title description := by
  rw [estimate]
  split
  · omega
  · split
    · omega
    · omega

lemma mem_rankSlots {c : Category} {fs : List TimeInterval} {x : TimeInterval}
    (h : x ∈ rankSlots c fs) : x ∈ fs := by
  rcases List.mem_append.mp h with h2 | h2
  · exact (List.mem_filter.mp h2).1
  · exact (List.mem_filter.mp h2).1

lemma chooseAiSlot_failure (fs : List TimeInterval) (tk : TodoTask) (resp : AiResponse)
    (h : AiFailureOn fs resp) :
    chooseAiSlot fs tk resp = AiResult.fallbackRequired := by
  cases resp with
  | timeout => rfl
  | malformed => rfl
  | authError => rfl
  | ok s d r =>
    simp only [AiFailureOn] at h
    simp [chooseAiSlot, h]

lemma chooseFallbackSlot_source {fs : List TimeInterval} {tk : TodoTask}
    {d : SchedulingDecision} (h : chooseFallbackSlot fs tk = FallbackResult.decision d) :
    d.source = Source.FALLBACK := by
  rw [chooseFallbackSlot] at h
  split at h
  · cases h
    rfl
  · simp at h

lemma pickDecision_some_inv {fs : List TimeInterval} {tk : TodoTask} {resp : AiResponse}
    {d : SchedulingDecision} (h : pickDecision fs tk resp = some d) :
    chooseAiSlot fs tk resp = AiResult.decision d ∨
    (chooseAiSlot fs tk resp = AiResult.fallbackRequired ∧
      chooseFallbackSlot fs tk = FallbackResult.decision d) := by
  cases hA : chooseAiSlot fs tk resp with
  | decision d2 =>
    rw [pickDecision, hA] at h
    simp at h
    exact Or.inl (by rw [h])
  | fallbackRequired =>
    rw [pickDecision, hA] at h
    cases hF : chooseFallbackSlot fs tk with
    | decision d2 =>
      rw [hF] at h
      simp at h
      exact Or.inr ⟨rfl, by rw [h]⟩
    | noSlotAvailable =>
      rw [hF] at h
      simp at h

lemma scheduleTask_scheduled_inv {window : TimeInterval} {c : Collaborators}
    {d : SchedulingDecision} {ref : String} {eff : Effects}
    (h : scheduleTask window c = (ScheduleOutcome.scheduled d ref, eff)) :
    ∃ task busyEvents,
      c.getTask = some task ∧ task.eventRef = none ∧ c.busy = Except.ok busyEvents ∧
      (findFreeSlots window busyEvents).isEmpty = false ∧
      pickDecision (findFreeSlots window busyEvents) task c.aiResponse = some d ∧
      c.createEventResult = Except.ok ref ∧ eff = ⟨1, 1, 1⟩ := by
  cases hg : c.getTask with
  | none =>
    rw [scheduleTask, hg] at h
    simp at h
  | some task =>
    cases he : task.eventRef with
    | some x =>
      simp only [scheduleTask, hg, he] at h
      simp at h
    | none =>
      cases hb : c.busy with
      | error u =>
        simp only [scheduleTask, hg, he, hb] at h
        simp at h
      | ok busyEvents =>
        simp only [scheduleTask, hg, he, hb] at h
        split at h
        next hempty => simp at h
        next hne =>
          split at h
          next hpick => simp at h
          next d0 hpick =>
            split at h
            next u hce => simp at h
            next evId hce =>
              split at h
              next u hse => simp at h
              next hse =>
                simp only [Prod.mk.injEq, ScheduleOutcome.scheduled.injEq] at h
                obtain ⟨⟨hd0, hev⟩, heff⟩ := h
                subst hd0
                subst hev
                exact ⟨task, busyEvents, rfl, he, rfl, by simpa using hne, hpick, hce,
                  heff.symm⟩

/-- C1: when the task event reference is already set, scheduleTask returns
AlreadyScheduled and performs no AI call, no calendar write and no data-store
write; and every successful scheduling run starts from a task whose event
reference is unset and performs exactly one event-reference write, so the
reference is set exactly once upon successful write-back and never
overwritten. -/
theorem scheduleTask_already_scheduled_guard (window : TimeInterval)
    (c : Collaborators) (task : TodoTask) (e : String)
    (hget : c.getTask = some task) (href : task.eventRef = some e) :
    scheduleTask window c = (ScheduleOutcome.alreadyScheduled, ⟨0, 0, 0⟩) ∧
    ∀ (c2 : Collaborators) (task2 : TodoTask) (d : SchedulingDecision)
      (ref : String) (eff : Effects),
      c2.getTask = some task2 →
      scheduleTask window c2 = (ScheduleOutcome.scheduled d ref, eff) →
      task2.eventRef = none ∧ eff.storeWrites = 1 := by
  constructor
  · simp [scheduleTask, hget, href]
  · intro c2 task2 d ref eff hget2 hsched
    obtain ⟨task3, busyEvents, hget3, he3, _, _, _, _, heff⟩ :=
      scheduleTask_scheduled_inv hsched
    have htaskeq : task2 = task3 := by
      rw [hget2] at hget3
      exact Option.some.inj hget3
    subst htaskeq
    subst heff
    exact ⟨he3, rfl⟩

theorem scheduleTask_already_scheduled_guard_witness :
    scheduleTask ⟨540, 1080⟩
        ⟨some ⟨1, "Write report", "", some "evOld"⟩, Except.ok [],
          AiResponse.timeout, Except.ok "ev1", Except.ok ()⟩ =
      (ScheduleOutcome.alreadyScheduled, ⟨0, 0, 0⟩) :=
  (scheduleTask_already_scheduled_guard ⟨540, 1080⟩
    ⟨some ⟨1, "Write report", "", some "evOld"⟩, Except.ok [],
      AiResponse.timeout, Except.ok "ev1", Except.ok ()⟩
    ⟨1, "Write report", "", some "evOld"⟩ "evOld" rfl rfl).1

/-- C2: whenever the AI response is a failure mode on the computed free slots
(timeout, malformed output, auth or quota error, or a recommendation outside
every free slot), chooseAiSlot returns FallbackRequired for every task, the
orchestrated decision equals the standalone heuristic output, and any
resulting scheduled decision is the heuristic one tagged with source
FALLBACK. -/
theorem ai_failure_degrades_to_fallback (window : TimeInterval)
    (c : Collaborators) (task : TodoTask) (busyEvents : List TimeInterval)
    (hget : c.getTask = some task) (hbusy : c.busy = Except.ok busyEvents)
    (hfail : AiFailureOn (findFreeSlots window busyEvents) c.aiResponse) :
    (∀ tk : TodoTask,
      chooseAiSlot (findFreeSlots window busyEvents) tk c.aiResponse =
        AiResult.fallbackRequired) ∧
    pickDecision (findFreeSlots window busyEvents) task c.aiResponse =
      fallbackOpt (findFreeSlots window busyEvents) task ∧
    ∀ (d : SchedulingDecision) (ref : String) (eff : Effects),
      scheduleTask window c = (ScheduleOutcome.scheduled d ref, eff) →
      chooseFallbackSlot (findFreeSlots window busyEvents) task =
        FallbackResult.decision d ∧ d.source = Source.FALLBACK := by
  have hai := fun tk => chooseAiSlot_failure (findFreeSlots window busyEvents)
    tk c.aiResponse hfail
  refine ⟨hai, ?_, ?_⟩
  · rw [pickDecision, hai task]
    rfl
  · intro d ref eff hsched
    obtain ⟨task3, busyEvents3, hget3, _, hb3, _, hpick, _, _⟩ :=
      scheduleTask_scheduled_inv hsched
    have htaskeq : task3 = task := by
      rw [hget] at hget3
      exact (Option.some.inj hget3).symm
    have hbeq : busyEvents3 = busyEvents := by
      rw [hbusy] at hb3
      exact (Except.ok.inj hb3).symm
    rw [htaskeq, hbeq] at hpick
    rcases pickDecision_some_inv hpick with hA | ⟨_, hF⟩
    · rw [hai task] at hA
      cases hA
    · exact ⟨hF, chooseFallbackSlot_source hF⟩

theorem ai_failure_degrades_to_fallback_witness :
    (∀ tk : TodoTask,
      chooseAiSlot (findFreeSlots ⟨540, 1080⟩ [⟨600, 660⟩]) tk AiResponse.timeout =
        AiResult.fallbackRequired) ∧
    pickDecision (findFreeSlots ⟨540, 1080⟩ [⟨600, 660⟩])
        ⟨1, "Write report", "", none⟩ AiResponse.timeout =
      fallbackOpt (findFreeSlots ⟨540, 1080⟩ [⟨600, 660⟩])
        ⟨1, "Write report", "", none⟩ :=
  ⟨(ai_failure_degrades_to_fallback ⟨540, 1080⟩
      ⟨some ⟨1, "Write report", "", none⟩, Except.ok [⟨600, 660⟩],
        AiResponse.timeout, Except.ok "ev1", Except.ok ()⟩
      ⟨1, "Write report", "", none⟩ [⟨600, 660⟩] rfl rfl trivial).1,
   (ai_failure_degrades_to_fallback ⟨540, 1080⟩
      ⟨some ⟨1, "Write report", "", none⟩, Except.ok [⟨600, 660⟩],
        AiResponse.timeout, Except.ok "ev1", Except.ok ()⟩
      ⟨1, "Write report", "", none⟩ [⟨600, 660⟩] rfl rfl trivial).2.1⟩

/-- C3: every decision produced by the AI scheduler or by the heuristic
scheduler over a given free-slot list places the whole interval from its
start to start plus duration inside a single free slot of that list. -/
theorem decision_inside_free_slot (fs : List TimeInterval) (tk : TodoTask)
    (resp : AiResponse) (d : SchedulingDecision)
    (h : chooseAiSlot fs tk resp = AiResult.decision d ∨
         chooseFallbackSlot fs tk = FallbackResult.decision d) :
    ∃ s ∈ fs, s.start ≤ d.slot_start ∧ d.slot_start + d.duration_minutes ≤ s.stop := by
  rcases h with h | h
  · cases resp with
    | timeout => simp [chooseAiSlot] at h
    | malformed => simp [chooseAiSlot] at h
    | authError => simp [chooseAiSlot] at h
    | ok s0 d0 r0 =>
      rw [chooseAiSlot] at h
      split at h
      next hfit =>
        cases h
        obtain ⟨slot, hmem, hb⟩ := List.any_eq_true.mp hfit
        simp only [Bool.and_eq_true, decide_eq_true_eq] at hb
        exact ⟨slot, hmem, hb.1, hb.2⟩
      next => simp at h
  · rw [chooseFallbackSlot] at h
    split at h
    next s heq =>
      cases h
      have hdur : estimate tk.title tk.description ≤ s.duration := by
        have hp := List.find?_some heq
        simpa using hp
      have hmem : s ∈ fs := mem_rankSlots (List.mem_of_find?_eq_some heq)
      have hge := estimate_ge tk.title tk.description
      have hdur2 : estimate tk.title tk.description ≤ s.stop - s.start := hdur
      refine ⟨s, hmem, Nat.le_refl _, ?_⟩
      dsimp only
      omega
    next => simp at h

theorem decision_inside_free_slot_witness :
    ∃ s ∈ ([⟨540, 600⟩] : List TimeInterval),
      s.start ≤ 540 ∧ 540 + 60 ≤ s.stop :=
  decision_inside_free_slot [⟨540, 600⟩] ⟨1, "Write report", "", none⟩
    (AiResponse.ok 810 30 "after lunch")
    ⟨540, 60, Source.FALLBACK, fallbackReason⟩ (Or.inr (by decide))

/-- C5: when the busy intervals of a day cover the whole working window,
findFreeSlots returns the empty list rather than an error, and scheduleTask
returns NoSlotAvailable immediately, with no AI call, no calendar write and
no data-store write. -/
theorem fully_booked_no_slot (window : TimeInterval) (c : Collaborators)
    (task : TodoTask) (busyEvents : List TimeInterval)
    (hget : c.getTask = some task) (href : task.eventRef = none)
    (hbusy : c.busy = Except.ok busyEvents) (hwf : WellFormed busyEvents)
    (hcov : ∀ t, window.start ≤ t → t < window.stop → covers busyEvents t) :
    findFreeSlots window busyEvents = [] ∧
    scheduleTask window c = (ScheduleOutcome.noSlotAvailable, ⟨0, 0, 0⟩) := by
  have h1 := findFreeSlots_covered_empty window busyEvents hwf hcov
  refine ⟨h1, ?_⟩
  simp [scheduleTask, hget, href, hbusy, h1]

theorem fully_booked_no_slot_witness :
    findFreeSlots ⟨540, 1080⟩ [⟨540, 1080⟩] = [] ∧
    scheduleTask ⟨540, 1080⟩
        ⟨some ⟨1, "Write report", "", none⟩, Except.ok [⟨540, 1080⟩],
          AiResponse.timeout, Except.ok "ev1", Except.ok ()⟩ =
      (ScheduleOutcome.noSlotAvailable, ⟨0, 0, 0⟩) :=
  fully_booked_no_slot ⟨540, 1080⟩
    ⟨some ⟨1, "Write report", "", none⟩, Except.ok [⟨540, 1080⟩],
      AiResponse.timeout, Except.ok "ev1", Except.ok ()⟩
    ⟨1, "Write report", "", none⟩ [⟨540, 1080⟩] rfl rfl rfl (by decide)
    (fun t h1 h2 => ⟨⟨540, 1080⟩, by simp, h1, h2⟩)

lemma find?_split {α : Type} (p : α → Bool) :
    ∀ (l : List α) (a : α), List.find? p l = some a →
      ∃ l1 l2, l = l1 ++ a :: l2 ∧ ∀ x ∈ l1, p x = false := by
  intro l
  induction l with
  | nil =>
    intro a h
    simp at h
  | cons b l ih =>
    intro a h
    by_cases hp : p b = true
    · rw [List.find?_cons_of_pos _ hp] at h
      obtain rfl : b = a := Option.some.inj h
      exact ⟨[], l, rfl, by simp⟩
    · rw [List.find?_cons_of_neg _ hp] at h
      obtain ⟨l1, l2, heq, hall⟩ := ih a h
      refine ⟨b :: l1, l2, by rw [heq]; rfl, ?_⟩
      intro x hx
      rcases List.mem_cons.mp hx with h2 | h2
      · rw [h2]
        exact Bool.not_eq_true _ ▸ eq_false_of_ne_true hp
      · exact hall x h2

/-- C6: in the concrete scenario with working window 09:00 to 18:00 and busy
intervals 10:00 to 11:00 and 14:00 to 15:00, a WORK task with estimated
duration 60 minutes is placed at 09:00 rather than in the afternoon slot;
and in general every heuristic decision uses the estimated duration and
selects the first slot of the category-ranked free slots whose duration is
at least the estimate, placing the task at that slot start. -/
theorem fallback_prefers_morning_earliest_fit :
    chooseFallbackSlot (findFreeSlots ⟨540, 1080⟩ [⟨600, 660⟩, ⟨840, 900⟩])
        ⟨1, "Write report", "", none⟩ =
      FallbackResult.decision ⟨540, 60, Source.FALLBACK, fallbackReason⟩ ∧
    ∀ (fs : List TimeInterval) (tk : TodoTask) (d : SchedulingDecision),
      chooseFallbackSlot fs tk = FallbackResult.decision d →
      d.duration_minutes = estimate tk.title tk.description ∧
      ∃ l1 s l2,
        rankSlots (classify tk.title tk.description) fs = l1 ++ s :: l2 ∧
        d.slot_start = s.start ∧
        estimate tk.title tk.description ≤ s.duration ∧
        ∀ x ∈ l1, x.duration < estimate tk.title tk.description := by
  constructor
  · decide
  · intro fs tk d h
    rw [chooseFallbackSlot] at h
    split at h
    next s heq =>
      cases h
      have hdur : estimate tk.title tk.description ≤ s.duration := by
        have hp := List.find?_some heq
        simpa using hp
      obtain ⟨l1, l2, hdecomp, hall⟩ := find?_split _ _ s heq
      refine ⟨rfl, l1, s, l2, hdecomp, rfl, hdur, ?_⟩
      intro x hx
      have hfalse := hall x hx
      simp only [decide_eq_false_iff_not, Nat.not_le] at hfalse
      exact hfalse
    next => simp at h

theorem fallback_prefers_morning_earliest_fit_witness :
    (⟨540, 60, Source.FALLBACK, fallbackReason⟩ :
        SchedulingDecision).duration_minutes = estimate "Write report" "" ∧
    ∃ l1 s l2,
      rankSlots (classify "Write report" "")
          (findFreeSlots ⟨540, 1080⟩ [⟨600, 660⟩, ⟨840, 900⟩]) = l1 ++ s :: l2 ∧
      (⟨540, 60, Source.FALLBACK, fallbackReason⟩ :
          SchedulingDecision).slot_start = s.start ∧
      estimate "Write report" "" ≤ s.duration ∧
      ∀ x ∈ l1, x.duration < estimate "Write report" "" :=
  fallback_prefers_morning_earliest_fit.2
    (findFreeSlots ⟨540, 1080⟩ [⟨600, 660⟩, ⟨840, 900⟩])
    ⟨1, "Write report", "", none⟩
    ⟨540, 60, Source.FALLBACK, fallbackReason⟩
    fallback_prefers_morning_earliest_fit.1

/-- C7: the heuristic scheduler and the duration estimator are deterministic:
two tasks with identical title and description text yield the same heuristic
decision over the same free slots and the same estimated duration. -/
theorem fallback_and_estimate_deterministic (fs : List TimeInterval)
    (t1 t2 : TodoTask) (ht : t1.title = t2.title)
    (hd : t1.description = t2.description) :
    chooseFallbackSlot fs t1 = chooseFallbackSlot fs t2 ∧
    estimate t1.title t1.description = estimate t2.title t2.description := by
  constructor
  · simp only [chooseFallbackSlot, ht, hd]
  · rw [ht, hd]

theorem fallback_and_estimate_deterministic_witness :
    chooseFallbackSlot [⟨540, 600⟩] ⟨1, "call mom", "", none⟩ =
      chooseFallbackSlot [⟨540, 600⟩] ⟨2, "call mom", "", none⟩ ∧
    estimate "call mom" "" = estimate "call mom" "" :=
  fallback_and_estimate_deterministic [⟨540, 600⟩]
    ⟨1, "call mom", "", none⟩ ⟨2, "call mom", "", none⟩ rfl rfl

/-- C8 counterexample: the schedule-todo API response declared by the
frontend client exposes no decision-source or provenance field, so the
response does not contain the AI or FALLBACK enum value. -/
theorem schedule_response_lacks_source_field :
    ¬ ("source" ∈ scheduleTodoResponseFields ∨
       "decision_source" ∈ scheduleTodoResponseFields ∨
       "provenance" ∈ scheduleTodoResponseFields) := by
  decide

/-- C8 (amended): every successful scheduleTask result carries a decision
produced by the AI scheduler or the heuristic scheduler over the computed
free slots, with its start time, duration, source equal to AI or FALLBACK
and reasoning string, while the schedule-todo API response declared by the
frontend exposes the scheduled time, duration and reasoning fields but no
decision-source field. -/
theorem schedule_result_provenance (window : TimeInterval) (c : Collaborators)
    (d : SchedulingDecision) (ref : String) (eff : Effects)
    (h : scheduleTask window c = (ScheduleOutcome.scheduled d ref, eff)) :
    (∃ task busyEvents,
      c.getTask = some task ∧ c.busy = Except.ok busyEvents ∧
      (chooseAiSlot (findFreeSlots window busyEvents) task c.aiResponse =
          AiResult.decision d ∨
        chooseFallbackSlot (findFreeSlots window busyEvents) task =
          FallbackResult.decision d)) ∧
    (d.source = Source.AI ∨ d.source = Source.FALLBACK) ∧
    "scheduled_time" ∈ scheduleTodoResponseFields ∧
    "duration" ∈ scheduleTodoResponseFields ∧
    "ai_reasoning" ∈ scheduleTodoResponseFields ∧
    "source" ∉ scheduleTodoResponseFields := by
  obtain ⟨task, busyEvents, hget, _, hb, _, hpick, _, _⟩ :=
    scheduleTask_scheduled_inv h
  refine ⟨⟨task, busyEvents, hget, hb, ?_⟩, ?_, by decide, by decide, by decide,
    by decide⟩
  · rcases pickDecision_some_inv hpick with hA | ⟨_, hF⟩
    · exact Or.inl hA
    · exact Or.inr hF
  · cases hs : d.source
    · exact Or.inl rfl
    · exact Or.inr rfl

theorem schedule_result_provenance_witness :
    (∃ task busyEvents,
      (⟨some ⟨1, "Write report", "", none⟩, Except.ok [],
          AiResponse.timeout, Except.ok "ev1", Except.ok ()⟩ :
            Collaborators).getTask = some task ∧
      (⟨some ⟨1, "Write report", "", none⟩, Except.ok [],
          AiResponse.timeout, Except.ok "ev1", Except.ok ()⟩ :
            Collaborators).busy = Except.ok busyEvents ∧
      (chooseAiSlot (findFreeSlots ⟨540, 1080⟩ busyEvents) task
          AiResponse.timeout =
          AiResult.decision ⟨540, 60, Source.FALLBACK, fallbackReason⟩ ∨
        chooseFallbackSlot (findFreeSlots ⟨540, 1080⟩ busyEvents) task =
          FallbackResult.decision ⟨540, 60, Source.FALLBACK, fallbackReason⟩)) ∧
    ((⟨540, 60, Source.FALLBACK, fallbackReason⟩ :
        SchedulingDecision).source = Source.AI ∨
      (⟨540, 60, Source.FALLBACK, fallbackReason⟩ :
        SchedulingDecision).source = Source.FALLBACK) ∧
    "scheduled_time" ∈ scheduleTodoResponseFields ∧
    "duration" ∈ scheduleTodoResponseFields ∧
    "ai_reasoning" ∈ scheduleTodoResponseFields ∧
    "source" ∉ scheduleTodoResponseFields :=
  schedule_result_provenance ⟨540, 1080⟩
    ⟨some ⟨1, "Write report", "", none⟩, Except.ok [],
      AiResponse.timeout, Except.ok "ev1", Except.ok ()⟩
    ⟨540, 60, Source.FALLBACK, fallbackReason⟩ "ev1" ⟨1, 1, 1⟩ (by decide)

lemma jsTrim_eq_empty_iff (s : String) :
    jsTrim s = "" ↔ ∀ c ∈ s.data, c.isWhitespace = true := by
  rw [String.ext_iff]
  show (((s.data.dropWhile Char.isWhitespace).reverse.dropWhile
      Char.isWhitespace).reverse) = ([] : List Char) ↔ _
  rw [List.reverse_eq_nil_iff, List.dropWhile_eq_nil_iff]
  constructor
  · intro h c hc
    rcases List.mem_append.mp
        (by rw [List.takeWhile_append_dropWhile]; exact hc :
          c ∈ List.takeWhile Char.isWhitespace s.data ++
            List.dropWhile Char.isWhitespace s.data) with h2 | h2
    · exact List.mem_takeWhile_imp h2
    · exact h c (List.mem_reverse.mpr h2)
  · intro h c hc
    have hmem := List.mem_reverse.mp hc
    have : c ∈ s.data := (List.dropWhile_sublist Char.isWhitespace).mem hmem
    exact h c this

/-- C9: a TodoList row offers the schedule action only when the todo is not
completed and its calendar event id is unset; a scheduled todo in display
mode shows the already-scheduled badge and no schedule button; and a
completed or scheduled todo never gets a schedule button in any mode, so the
UI never initiates scheduling for it. -/
theorem schedule_action_guard (h e : Bool) (t : Todo) :
    ((todoRowActions h e t).scheduleButton = true →
      t.completed = false ∧ t.calendar_event_id = none) ∧
    (isScheduled t = true →
      (todoRowActions h false t).scheduledBadge = true ∧
      (todoRowActions h e t).scheduleButton = false) ∧
    ((t.completed = true ∨ isScheduled t = true) →
      (todoRowActions h e t).scheduleButton = false) := by
  cases e with
  | true =>
    refine ⟨?_, ?_, ?_⟩
    · intro hbtn
      simp [todoRowActions] at hbtn
    · intro hs
      exact ⟨by simp [todoRowActions, hs], by simp [todoRowActions]⟩
    · intro _
      simp [todoRowActions]
  | false =>
    refine ⟨?_, ?_, ?_⟩
    · intro hbtn
      simp only [todoRowActions, if_neg (by simp : ¬ (false = true))] at hbtn
      simp only [Bool.and_eq_true, Bool.not_eq_true'] at hbtn
      refine ⟨hbtn.1.2, ?_⟩
      have := hbtn.2
      rw [isScheduled] at this
      exact Option.not_isSome_iff_eq_none.mp (by simp [this])
    · intro hs
      constructor
      · simp [todoRowActions, hs]
      · simp [todoRowActions, hs]
    · intro hcs
      rcases hcs with hc | hs
      · simp [todoRowActions, hc]
      · simp [todoRowActions, hs]

theorem schedule_action_guard_witness :
    (isScheduled ⟨1, "a", none, false, "2025-01-01", some "ev", "now", none⟩ = true →
      (todoRowActions true false
          ⟨1, "a", none, false, "2025-01-01", some "ev", "now", none⟩).scheduledBadge =
        true ∧
      (todoRowActions true false
          ⟨1, "a", none, false, "2025-01-01", some "ev", "now", none⟩).scheduleButton =
        false) ∧
    (isScheduled ⟨1, "a", none, false, "2025-01-01", some "ev", "now", none⟩ = true) :=
  ⟨(schedule_action_guard true false
      ⟨1, "a", none, false, "2025-01-01", some "ev", "now", none⟩).2.1,
    by decide⟩

/-- C10: TodoForm invokes onAdd only when the entered title contains at least
one non-whitespace character, always passing the trimmed title, which is
nonempty; a whitespace-only or empty description is passed as undefined, and
any passed description is the trimmed text and nonempty. -/
theorem todoForm_submit_trimmed (title description : String)
    (p : String × Option String)
    (h : handleSubmit title description = some p) :
    p.1 = jsTrim title ∧ p.1 ≠ "" ∧
    (∃ c ∈ title.data, c.isWhitespace = false) ∧
    ((∀ c ∈ description.data, c.isWhitespace = true) → p.2 = none) ∧
    ∀ s, p.2 = some s → s = jsTrim description ∧ s ≠ "" := by
  rw [handleSubmit] at h
  split at h
  next => simp at h
  next hne =>
    have hp := Option.some.inj h
    have hp1 : p.1 = jsTrim title := by rw [← hp]
    have hp2 : p.2 = if jsTrim description = "" then none
        else some (jsTrim description) := by rw [← hp]
    refine ⟨hp1, by rw [hp1]; exact hne, ?_, ?_, ?_⟩
    · by_contra hall
      push_neg at hall
      exact hne ((jsTrim_eq_empty_iff title).mpr (by
        intro c hc
        have := hall c hc
        simpa using this))
    · intro hws
      rw [hp2, if_pos ((jsTrim_eq_empty_iff description).mpr hws)]
    · intro s hs
      rw [hp2] at hs
      split at hs
      next => simp at hs
      next hdne =>
        have := Option.some.inj hs
        exact ⟨this.symm, by rw [this] at hdne; exact hdne⟩

theorem todoForm_submit_trimmed_witness :
    ("hi", (none : Option String)).1 = jsTrim "  hi  " ∧
    ("hi", (none : Option String)).1 ≠ "" ∧
    (∃ c ∈ "  hi  ".data, c.isWhitespace = false) ∧
    ((∀ c ∈ "   ".data, c.isWhitespace = true) →
      ("hi", (none : Option String)).2 = none) ∧
    ∀ s, ("hi", (none : Option String)).2 = some s → s = jsTrim "   " ∧ s ≠ "" :=
  todoForm_submit_trimmed "  hi  " "   " ("hi", none) (by decide)
